import Mathlib

/-!
Shallow embedding of `src/basic_statistics.rs` (rhai-lab), the numeric-array
reduction engine exposed to the rhai scripting host: `max`, `min`, `bounds`,
`maxk`, `mink` over arrays of dynamic values.

Modelling conventions:
  * a rhai `Dynamic` value is `Dyn`: an `i64` integer (`vInt`, modelled as `Int`
    with overflow irrelevant because the code only compares and copies), an
    `f64` float (`vFloat`, modelled as `Rat`: the functions never do float
    arithmetic, only comparison and copying, and non-NaN `f64` values are
    totally ordered, so an order-preserving embedding into `Rat` is exact;
    NaN inputs are out of the spec's contract and have no representative),
    or any other kind (`vStr`);
  * a Rust panic (out-of-bounds index, `usize` subtraction underflow, a failed
    `unwrap`) is `RhaiResult.fault` for functions returning
    `Result<_, Box<EvalAltResult>>`, and `Option.none` for functions whose
    Rust signature has no error channel (`gen_max`, `gen_min`, `bounds`);
  * the `i64 → usize` cast `k as usize` is two's-complement wraparound,
    `usizeOfInt`;
  * Rust's stable `sort` / `sort_by` on a totally ordered slice is `sortAsc`
    (`List.mergeSort` with `· ≤ ·`); on values the result is the unique
    sorted permutation, so the choice of sorting algorithm is immaterial.
-/

namespace RhaiLab

/-- A rhai `Dynamic` value as seen by the statistics module: an `i64`,
an `f64` (non-NaN, order-embedded into `Rat`), or a value of any other
kind (represented by a string payload). -/
inductive Dyn where
  | vInt : Int → Dyn
  | vFloat : Rat → Dyn
  | vStr : String → Dyn
deriving DecidableEq

/-- The `arr[0].is::<f64>()` test. -/
def Dyn.isFloatRep : Dyn → Bool
  | .vFloat _ => true
  | _ => false

/-- The `arr[0].is::<i64>()` test. -/
def Dyn.isIntRep : Dyn → Bool
  | .vInt _ => true
  | _ => false

/-- The `el.as_float()` accessor: succeeds only on a float `Dynamic`. -/
def Dyn.asFloat : Dyn → Option Rat
  | .vFloat q => some q
  | _ => none

/-- The `el.as_int()` accessor: succeeds only on an integer `Dynamic`. -/
def Dyn.asInt : Dyn → Option Int
  | .vInt n => some n
  | _ => none

/-- Outcome of a module function with signature
`Result<T, Box<EvalAltResult>>`: a returned value, a returned error
(`EvalAltResult::ErrorArithmetic` carrying a message), or a Rust panic. -/
inductive RhaiResult (α : Type) where
  | ok : α → RhaiResult α
  | err : String → RhaiResult α
  | fault : RhaiResult α
deriving DecidableEq

/-- The error message used by every type-mismatch branch in the module. -/
def typeErrMsg : String := "The elements of the input must either be INT or FLOAT."

/-- The `arr.iter().map(|el| el.as_xxx().unwrap()).collect()` pipeline:
extract every element with `f`, panicking (`none`) at the first element the
accessor rejects. -/
def extractAll {β : Type} (f : Dyn → Option β) : List Dyn → Option (List β)
  | [] => some []
  | x :: xs =>
    match f x, extractAll f xs with
    | some b, some bs => some (b :: bs)
    | _, _ => none

/-- Ascending stable sort, the model of `y.sort()` (integers) and of
`y.sort_by(comparator)` on NaN-free floats, where the comparator agrees with
the total order. On a list of totally ordered values every correct ascending
sort produces the same list, so the concrete sorting algorithm (here
insertion sort, chosen because it evaluates by kernel reduction) is
observationally identical to the source's. -/
def sortAsc {α : Type} [LinearOrder α] (l : List α) : List α :=
  List.insertionSort (· ≤ ·) l

/-- The `k as usize` cast: two's-complement wraparound of an `i64` into the
64-bit unsigned range. -/
def usizeOfInt (k : Int) : Nat := (k % (2 : Int) ^ 64).toNat

/-- A Rust `for idx in r { v.push(y[idx]) }` loop over a list of indices:
collects `y[idx]` in order, panicking (`none`) if any index is out of
bounds. -/
def collectIdx {α : Type} (y : List α) : List Nat → Option (List α)
  | [] => some []
  | i :: is =>
    match y[i]?, collectIdx y is with
    | some a, some v => some (a :: v)
    | _, _ => none

/-- `array_max` (`max(arr)` on arrays): classify by the first element
(`arr[0]`, a panic on an empty array), extract all elements as that kind,
sort ascending, and return the last element `y[y.len() - 1]`. A non-numeric
first element yields the arithmetic error; a later element of the wrong kind
panics in `unwrap`. -/
def array_max (arr : List Dyn) : RhaiResult Dyn :=
  match arr.head? with
  | none => .fault
  | some h0 =>
    if h0.isFloatRep then
      match extractAll Dyn.asFloat arr with
      | none => .fault
      | some y =>
        match (sortAsc y).getLast? with
        | none => .fault
        | some m => .ok (.vFloat m)
    else if h0.isIntRep then
      match extractAll Dyn.asInt arr with
      | none => .fault
      | some y =>
        match (sortAsc y).getLast? with
        | none => .fault
        | some m => .ok (.vInt m)
    else .err typeErrMsg

/-- `array_min` (`min(arr)` on arrays): like `array_max` but returns the
first element `y[0]` of the sorted buffer. -/
def array_min (arr : List Dyn) : RhaiResult Dyn :=
  match arr.head? with
  | none => .fault
  | some h0 =>
    if h0.isFloatRep then
      match extractAll Dyn.asFloat arr with
      | none => .fault
      | some y =>
        match (sortAsc y).head? with
        | none => .fault
        | some m => .ok (.vFloat m)
    else if h0.isIntRep then
      match extractAll Dyn.asInt arr with
      | none => .fault
      | some y =>
        match (sortAsc y).head? with
        | none => .fault
        | some m => .ok (.vInt m)
    else .err typeErrMsg

/-- `gen_max` (`max(a, b)` on scalars): `array_max(vec![a, b]).unwrap()`.
The `unwrap` turns both a returned error and an inner panic into a panic,
so the model returns `Option`: `none` is a panic. -/
def gen_max (a b : Dyn) : Option Dyn :=
  match array_max [a, b] with
  | .ok v => some v
  | _ => none

/-- `gen_min` (`min(a, b)` on scalars): `array_min(vec![a, b]).unwrap()`. -/
def gen_min (a b : Dyn) : Option Dyn :=
  match array_min [a, b] with
  | .ok v => some v
  | _ => none

/-- `bounds(arr)`: `vec![array_min(arr.clone()).unwrap(), array_max(arr.clone()).unwrap()]`.
The Rust signature returns a plain `Array`, so the inner `Result`s are
`unwrap`ped: an inner error or panic becomes a panic (`none`). -/
def bounds (arr : List Dyn) : Option (List Dyn) :=
  match array_min arr with
  | .ok lo =>
    match array_max arr with
    | .ok hi => some [lo, hi]
    | _ => none
  | _ => none

/-- `maxk(arr, k)`: classify, extract, sort ascending, then push
`y[idx]` for `idx in (y.len() - (k as usize))..(y.len())`. The subtraction
`y.len() - (k as usize)` is `usize` subtraction and panics on underflow,
i.e. when `k as usize` exceeds the length. -/
def maxk (arr : List Dyn) (k : Int) : RhaiResult (List Dyn) :=
  match arr.head? with
  | none => .fault
  | some h0 =>
    if h0.isFloatRep then
      match extractAll Dyn.asFloat arr with
      | none => .fault
      | some y0 =>
        let y := sortAsc y0
        if usizeOfInt k ≤ y.length then
          match collectIdx y (List.range' (y.length - usizeOfInt k) (usizeOfInt k)) with
          | none => .fault
          | some v => .ok (v.map Dyn.vFloat)
        else .fault
    else if h0.isIntRep then
      match extractAll Dyn.asInt arr with
      | none => .fault
      | some y0 =>
        let y := sortAsc y0
        if usizeOfInt k ≤ y.length then
          match collectIdx y (List.range' (y.length - usizeOfInt k) (usizeOfInt k)) with
          | none => .fault
          | some v => .ok (v.map Dyn.vInt)
        else .fault
    else .err typeErrMsg

/-- `mink(arr, k)`: classify, extract, sort ascending, then push `y[idx]` for
`idx in (0 as usize)..(k as usize)`; an index past the end panics. -/
def mink (arr : List Dyn) (k : Int) : RhaiResult (List Dyn) :=
  match arr.head? with
  | none => .fault
  | some h0 =>
    if h0.isFloatRep then
      match extractAll Dyn.asFloat arr with
      | none => .fault
      | some y0 =>
        let y := sortAsc y0
        match collectIdx y (List.range' 0 (usizeOfInt k)) with
        | none => .fault
        | some v => .ok (v.map Dyn.vFloat)
    else if h0.isIntRep then
      match extractAll Dyn.asInt arr with
      | none => .fault
      | some y0 =>
        let y := sortAsc y0
        match collectIdx y (List.range' 0 (usizeOfInt k)) with
        | none => .fault
        | some v => .ok (v.map Dyn.vInt)
    else .err typeErrMsg

/-- A sequence is a homogeneous non-empty numeric sequence: all elements
integers, or all elements (non-NaN) floats. -/
def HomNum (s : List Dyn) : Prop :=
  (∃ ns : List Int, ns ≠ [] ∧ s = ns.map Dyn.vInt) ∨
  (∃ qs : List Rat, qs ≠ [] ∧ s = qs.map Dyn.vFloat)

/-- Same-kind comparison of two dynamic values, as a Boolean; values of
different kinds are incomparable. -/
def dynLe : Dyn → Dyn → Bool
  | .vInt a, .vInt b => decide (a ≤ b)
  | .vFloat a, .vFloat b => decide (a ≤ b)
  | _, _ => false

section SortLemmas

variable {α : Type} [LinearOrder α]

theorem sortAsc_perm (l : List α) : List.Perm (sortAsc l) l :=
  List.perm_insertionSort _ l

theorem sortAsc_sorted (l : List α) : (sortAsc l).Pairwise (· ≤ ·) :=
  List.sorted_insertionSort _ l

theorem length_sortAsc (l : List α) : (sortAsc l).length = l.length :=
  (sortAsc_perm l).length_eq

theorem mem_sortAsc {l : List α} {x : α} : x ∈ sortAsc l ↔ x ∈ l :=
  (sortAsc_perm l).mem_iff

theorem le_getLast_of_sorted :
    ∀ (l : List α), l.Pairwise (· ≤ ·) → ∀ m, l.getLast? = some m → ∀ x ∈ l, x ≤ m
  | [], _, m, hm => by simp at hm
  | [a], _, m, hm => by
    simp at hm
    subst hm
    intro x hx
    simp at hx
    subst hx
    exact le_refl _
  | a :: b :: t, hp, m, hm => by
    rw [List.getLast?_cons_cons] at hm
    rcases List.pairwise_cons.1 hp with ⟨ha, hp2⟩
    intro x hx
    rcases List.mem_cons.1 hx with rfl | hx2
    · exact ha m (List.mem_of_getLast?_eq_some hm)
    · exact le_getLast_of_sorted (b :: t) hp2 m hm x hx2

theorem head_le_of_sorted (l : List α) (hp : l.Pairwise (· ≤ ·)) (m : α)
    (hm : l.head? = some m) : ∀ x ∈ l, m ≤ x := by
  cases l with
  | nil => simp at hm
  | cons a t =>
    simp at hm
    subst hm
    rcases List.pairwise_cons.1 hp with ⟨ha, _⟩
    intro x hx
    rcases List.mem_cons.1 hx with rfl | hx2
    · exact le_refl x
    · exact ha x hx2

theorem sortAsc_getLast_spec (l : List α) (h : l ≠ []) :
    ∃ m, (sortAsc l).getLast? = some m ∧ m ∈ l ∧ ∀ x ∈ l, x ≤ m := by
  have hne : sortAsc l ≠ [] := by
    intro hcon
    apply h
    have := length_sortAsc l
    rw [hcon] at this
    exact List.length_eq_zero.1 this.symm
  refine ⟨(sortAsc l).getLast hne, List.getLast?_eq_getLast _ hne, ?_, ?_⟩
  · exact mem_sortAsc.1 (List.getLast_mem hne)
  · intro x hx
    exact le_getLast_of_sorted (sortAsc l) (sortAsc_sorted l) _
      (List.getLast?_eq_getLast _ hne) x (mem_sortAsc.2 hx)

theorem sortAsc_head_spec (l : List α) (h : l ≠ []) :
    ∃ m, (sortAsc l).head? = some m ∧ m ∈ l ∧ ∀ x ∈ l, m ≤ x := by
  have hne : sortAsc l ≠ [] := by
    intro hcon
    apply h
    have := length_sortAsc l
    rw [hcon] at this
    exact List.length_eq_zero.1 this.symm
  refine ⟨(sortAsc l).head hne, List.head?_eq_head hne, ?_, ?_⟩
  · exact mem_sortAsc.1 (List.head_mem hne)
  · intro x hx
    exact head_le_of_sorted (sortAsc l) (sortAsc_sorted l) _
      (List.head?_eq_head hne) x (mem_sortAsc.2 hx)

end SortLemmas

section CollectLemmas

variable {α : Type}

theorem collectIdx_range' (y : List α) :
    ∀ (n lo : Nat), lo + n ≤ y.length →
      collectIdx y (List.range' lo n) = some ((y.drop lo).take n)
  | 0, lo, _ => by simp [collectIdx]
  | n + 1, lo, h => by
    have hlo : lo < y.length := by omega
    have ih := collectIdx_range' y n (lo + 1) (by omega)
    rw [List.range'_succ]
    simp only [collectIdx, List.getElem?_eq_getElem hlo, ih]
    rw [List.drop_eq_getElem_cons hlo, List.take_succ_cons]

theorem collectIdx_eq_none (y : List α) :
    ∀ (is : List Nat), (∃ i ∈ is, y.length ≤ i) → collectIdx y is = none
  | [], h => by simp at h
  | i :: is, h => by
    simp only [collectIdx]
    rcases h with ⟨j, hj, hlen⟩
    rcases List.mem_cons.1 hj with rfl | hj2
    · rw [List.getElem?_eq_none hlen]
    · rw [collectIdx_eq_none y is ⟨j, hj2, hlen⟩]
      cases y[i]? <;> rfl

end CollectLemmas

theorem extractAll_asInt_map (ns : List Int) :
    extractAll Dyn.asInt (ns.map Dyn.vInt) = some ns := by
  induction ns with
  | nil => rfl
  | cons n t ih => simp [extractAll, Dyn.asInt, ih]

theorem extractAll_asFloat_map (qs : List Rat) :
    extractAll Dyn.asFloat (qs.map Dyn.vFloat) = some qs := by
  induction qs with
  | nil => rfl
  | cons q t ih => simp [extractAll, Dyn.asFloat, ih]

theorem usizeOfInt_natCast (n : Nat) (h : (n : Int) < 2 ^ 64) :
    usizeOfInt (n : Int) = n := by
  unfold usizeOfInt
  rw [Int.emod_eq_of_lt (by positivity) h]
  simp

theorem array_max_int (ns : List Int) (h : ns ≠ []) :
    ∃ m, (sortAsc ns).getLast? = some m ∧
      array_max (ns.map Dyn.vInt) = .ok (.vInt m) ∧ m ∈ ns ∧ ∀ x ∈ ns, x ≤ m := by
  obtain ⟨m, hL, hmem, hub⟩ := sortAsc_getLast_spec ns h
  refine ⟨m, hL, ?_, hmem, hub⟩
  cases ns with
  | nil => exact absurd rfl h
  | cons n t =>
    have hE := extractAll_asInt_map (n :: t)
    simp only [List.map_cons] at hE ⊢
    simp [array_max, Dyn.isFloatRep, Dyn.isIntRep, hE, hL]

theorem array_min_int (ns : List Int) (h : ns ≠ []) :
    ∃ m, (sortAsc ns).head? = some m ∧
      array_min (ns.map Dyn.vInt) = .ok (.vInt m) ∧ m ∈ ns ∧ ∀ x ∈ ns, m ≤ x := by
  obtain ⟨m, hL, hmem, hlb⟩ := sortAsc_head_spec ns h
  refine ⟨m, hL, ?_, hmem, hlb⟩
  cases ns with
  | nil => exact absurd rfl h
  | cons n t =>
    have hE := extractAll_asInt_map (n :: t)
    simp only [List.map_cons] at hE ⊢
    simp [array_min, Dyn.isFloatRep, Dyn.isIntRep, hE, hL]

theorem array_max_float (qs : List Rat) (h : qs ≠ []) :
    ∃ m, (sortAsc qs).getLast? = some m ∧
      array_max (qs.map Dyn.vFloat) = .ok (.vFloat m) ∧ m ∈ qs ∧ ∀ x ∈ qs, x ≤ m := by
  obtain ⟨m, hL, hmem, hub⟩ := sortAsc_getLast_spec qs h
  refine ⟨m, hL, ?_, hmem, hub⟩
  cases qs with
  | nil => exact absurd rfl h
  | cons q t =>
    have hE := extractAll_asFloat_map (q :: t)
    simp only [List.map_cons] at hE ⊢
    simp [array_max, Dyn.isFloatRep, hE, hL]

theorem array_min_float (qs : List Rat) (h : qs ≠ []) :
    ∃ m, (sortAsc qs).head? = some m ∧
      array_min (qs.map Dyn.vFloat) = .ok (.vFloat m) ∧ m ∈ qs ∧ ∀ x ∈ qs, m ≤ x := by
  obtain ⟨m, hL, hmem, hlb⟩ := sortAsc_head_spec qs h
  refine ⟨m, hL, ?_, hmem, hlb⟩
  cases qs with
  | nil => exact absurd rfl h
  | cons q t =>
    have hE := extractAll_asFloat_map (q :: t)
    simp only [List.map_cons] at hE ⊢
    simp [array_min, Dyn.isFloatRep, hE, hL]

theorem maxk_int (ns : List Int) (k : Nat) (h : ns ≠ []) (hk : k ≤ ns.length)
    (hfit : (k : Int) < 2 ^ 64) :
    maxk (ns.map Dyn.vInt) (k : Int) =
      .ok (((sortAsc ns).drop (ns.length - k)).map Dyn.vInt) := by
  cases ns with
  | nil => exact absurd rfl h
  | cons n t =>
    have hu := usizeOfInt_natCast k hfit
    have hE := extractAll_asInt_map (n :: t)
    have hlen : (sortAsc (n :: t)).length = (n :: t).length := length_sortAsc _
    have hk2 : k ≤ t.length + 1 := by simpa using hk
    have hC := collectIdx_range' (sortAsc (n :: t)) k ((sortAsc (n :: t)).length - k)
      (by omega)
    have hT : ((sortAsc (n :: t)).drop ((sortAsc (n :: t)).length - k)).take k =
        (sortAsc (n :: t)).drop ((sortAsc (n :: t)).length - k) := by
      apply List.take_of_length_le
      simp
      omega
    rw [hT, hlen] at hC
    simp only [List.length_cons] at hC
    simp only [List.map_cons] at hE ⊢
    simp [maxk, Dyn.isFloatRep, Dyn.isIntRep, hE, hu, hk2, hC, hlen]

theorem mink_int (ns : List Int) (k : Nat) (h : ns ≠ []) (hk : k ≤ ns.length)
    (hfit : (k : Int) < 2 ^ 64) :
    mink (ns.map Dyn.vInt) (k : Int) = .ok (((sortAsc ns).take k).map Dyn.vInt) := by
  cases ns with
  | nil => exact absurd rfl h
  | cons n t =>
    have hu := usizeOfInt_natCast k hfit
    have hE := extractAll_asInt_map (n :: t)
    have hlen : (sortAsc (n :: t)).length = (n :: t).length := length_sortAsc _
    have hC := collectIdx_range' (sortAsc (n :: t)) k 0 (by omega)
    rw [List.drop_zero] at hC
    simp only [List.map_cons] at hE ⊢
    simp [mink, Dyn.isFloatRep, Dyn.isIntRep, hE, hu, hC]

theorem maxk_float (qs : List Rat) (k : Nat) (h : qs ≠ []) (hk : k ≤ qs.length)
    (hfit : (k : Int) < 2 ^ 64) :
    maxk (qs.map Dyn.vFloat) (k : Int) =
      .ok (((sortAsc qs).drop (qs.length - k)).map Dyn.vFloat) := by
  cases qs with
  | nil => exact absurd rfl h
  | cons q t =>
    have hu := usizeOfInt_natCast k hfit
    have hE := extractAll_asFloat_map (q :: t)
    have hlen : (sortAsc (q :: t)).length = (q :: t).length := length_sortAsc _
    have hk2 : k ≤ t.length + 1 := by simpa using hk
    have hC := collectIdx_range' (sortAsc (q :: t)) k ((sortAsc (q :: t)).length - k)
      (by omega)
    have hT : ((sortAsc (q :: t)).drop ((sortAsc (q :: t)).length - k)).take k =
        (sortAsc (q :: t)).drop ((sortAsc (q :: t)).length - k) := by
      apply List.take_of_length_le
      simp
      omega
    rw [hT, hlen] at hC
    simp only [List.length_cons] at hC
    simp only [List.map_cons] at hE ⊢
    simp [maxk, Dyn.isFloatRep, hE, hu, hk2, hC, hlen]

theorem mink_float (qs : List Rat) (k : Nat) (h : qs ≠ []) (hk : k ≤ qs.length)
    (hfit : (k : Int) < 2 ^ 64) :
    mink (qs.map Dyn.vFloat) (k : Int) = .ok (((sortAsc qs).take k).map Dyn.vFloat) := by
  cases qs with
  | nil => exact absurd rfl h
  | cons q t =>
    have hu := usizeOfInt_natCast k hfit
    have hE := extractAll_asFloat_map (q :: t)
    have hlen : (sortAsc (q :: t)).length = (q :: t).length := length_sortAsc _
    have hC := collectIdx_range' (sortAsc (q :: t)) k 0 (by omega)
    rw [List.drop_zero] at hC
    simp only [List.map_cons] at hE ⊢
    simp [mink, Dyn.isFloatRep, hE, hu, hC]

theorem maxk_int_fault (ns : List Int) (k : Int) (h : ns ≠ [])
    (hk : ns.length < usizeOfInt k) : maxk (ns.map Dyn.vInt) k = .fault := by
  cases ns with
  | nil => exact absurd rfl h
  | cons n t =>
    have hE := extractAll_asInt_map (n :: t)
    have hlen : (sortAsc (n :: t)).length = (n :: t).length := length_sortAsc _
    have hnot : ¬ (usizeOfInt k ≤ t.length + 1) := by
      simp only [List.length_cons] at hk
      omega
    simp only [List.map_cons] at hE ⊢
    simp [maxk, Dyn.isFloatRep, Dyn.isIntRep, hE, hlen, hnot]

theorem maxk_float_fault (qs : List Rat) (k : Int) (h : qs ≠ [])
    (hk : qs.length < usizeOfInt k) : maxk (qs.map Dyn.vFloat) k = .fault := by
  cases qs with
  | nil => exact absurd rfl h
  | cons q t =>
    have hE := extractAll_asFloat_map (q :: t)
    have hlen : (sortAsc (q :: t)).length = (q :: t).length := length_sortAsc _
    have hnot : ¬ (usizeOfInt k ≤ t.length + 1) := by
      simp only [List.length_cons] at hk
      omega
    simp only [List.map_cons] at hE ⊢
    simp [maxk, Dyn.isFloatRep, hE, hlen, hnot]

theorem mink_int_fault (ns : List Int) (k : Int) (h : ns ≠ [])
    (hk : ns.length < usizeOfInt k) : mink (ns.map Dyn.vInt) k = .fault := by
  cases ns with
  | nil => exact absurd rfl h
  | cons n t =>
    have hE := extractAll_asInt_map (n :: t)
    have hlen : (sortAsc (n :: t)).length = (n :: t).length := length_sortAsc _
    have hmem : (sortAsc (n :: t)).length ∈ List.range' 0 (usizeOfInt k) := by
      rw [List.mem_range']
      exact ⟨(sortAsc (n :: t)).length, by omega, by omega⟩
    have hnone := collectIdx_eq_none (sortAsc (n :: t)) (List.range' 0 (usizeOfInt k))
      ⟨(sortAsc (n :: t)).length, hmem, le_refl _⟩
    simp only [List.map_cons] at hE ⊢
    simp [mink, Dyn.isFloatRep, Dyn.isIntRep, hE, hnone]

theorem mink_float_fault (qs : List Rat) (k : Int) (h : qs ≠ [])
    (hk : qs.length < usizeOfInt k) : mink (qs.map Dyn.vFloat) k = .fault := by
  cases qs with
  | nil => exact absurd rfl h
  | cons q t =>
    have hE := extractAll_asFloat_map (q :: t)
    have hlen : (sortAsc (q :: t)).length = (q :: t).length := length_sortAsc _
    have hmem : (sortAsc (q :: t)).length ∈ List.range' 0 (usizeOfInt k) := by
      rw [List.mem_range']
      exact ⟨(sortAsc (q :: t)).length, by omega, by omega⟩
    have hnone := collectIdx_eq_none (sortAsc (q :: t)) (List.range' 0 (usizeOfInt k))
      ⟨(sortAsc (q :: t)).length, hmem, le_refl _⟩
    simp only [List.map_cons] at hE ⊢
    simp [mink, Dyn.isFloatRep, hE, hnone]

/-!
State-passing forms of the five operations, used to express the frame
property: the caller's array is threaded through the call and handed back at
every exit point exactly as the Rust body leaves it. The body only ever
reads `arr` (the sort happens on the separately collected buffer `y`), so
every exit returns the array unchanged.
-/

/-- State-passing `array_max`: result paired with the caller's array as the
function body leaves it. -/
def array_max_st (arr : List Dyn) : RhaiResult Dyn × List Dyn :=
  match arr.head? with
  | none => (.fault, arr)
  | some h0 =>
    if h0.isFloatRep then
      match extractAll Dyn.asFloat arr with
      | none => (.fault, arr)
      | some y =>
        match (sortAsc y).getLast? with
        | none => (.fault, arr)
        | some m => (.ok (.vFloat m), arr)
    else if h0.isIntRep then
      match extractAll Dyn.asInt arr with
      | none => (.fault, arr)
      | some y =>
        match (sortAsc y).getLast? with
        | none => (.fault, arr)
        | some m => (.ok (.vInt m), arr)
    else (.err typeErrMsg, arr)

/-- State-passing `array_min`. -/
def array_min_st (arr : List Dyn) : RhaiResult Dyn × List Dyn :=
  match arr.head? with
  | none => (.fault, arr)
  | some h0 =>
    if h0.isFloatRep then
      match extractAll Dyn.asFloat arr with
      | none => (.fault, arr)
      | some y =>
        match (sortAsc y).head? with
        | none => (.fault, arr)
        | some m => (.ok (.vFloat m), arr)
    else if h0.isIntRep then
      match extractAll Dyn.asInt arr with
      | none => (.fault, arr)
      | some y =>
        match (sortAsc y).head? with
        | none => (.fault, arr)
        | some m => (.ok (.vInt m), arr)
    else (.err typeErrMsg, arr)

/-- State-passing `bounds`: the two inner calls receive clones
(`arr.clone()`), so the caller's array is returned untouched. -/
def bounds_st (arr : List Dyn) : Option (List Dyn) × List Dyn :=
  match (array_min_st arr).1 with
  | .ok lo =>
    match (array_max_st arr).1 with
    | .ok hi => (some [lo, hi], arr)
    | _ => (none, arr)
  | _ => (none, arr)

/-- State-passing `maxk`. -/
def maxk_st (arr : List Dyn) (k : Int) : RhaiResult (List Dyn) × List Dyn :=
  match arr.head? with
  | none => (.fault, arr)
  | some h0 =>
    if h0.isFloatRep then
      match extractAll Dyn.asFloat arr with
      | none => (.fault, arr)
      | some y0 =>
        let y := sortAsc y0
        if usizeOfInt k ≤ y.length then
          match collectIdx y (List.range' (y.length - usizeOfInt k) (usizeOfInt k)) with
          | none => (.fault, arr)
          | some v => (.ok (v.map Dyn.vFloat), arr)
        else (.fault, arr)
    else if h0.isIntRep then
      match extractAll Dyn.asInt arr with
      | none => (.fault, arr)
      | some y0 =>
        let y := sortAsc y0
        if usizeOfInt k ≤ y.length then
          match collectIdx y (List.range' (y.length - usizeOfInt k) (usizeOfInt k)) with
          | none => (.fault, arr)
          | some v => (.ok (v.map Dyn.vInt), arr)
        else (.fault, arr)
    else (.err typeErrMsg, arr)

/-- State-passing `mink`. -/
def mink_st (arr : List Dyn) (k : Int) : RhaiResult (List Dyn) × List Dyn :=
  match arr.head? with
  | none => (.fault, arr)
  | some h0 =>
    if h0.isFloatRep then
      match extractAll Dyn.asFloat arr with
      | none => (.fault, arr)
      | some y0 =>
        let y := sortAsc y0
        match collectIdx y (List.range' 0 (usizeOfInt k)) with
        | none => (.fault, arr)
        | some v => (.ok (v.map Dyn.vFloat), arr)
    else if h0.isIntRep then
      match extractAll Dyn.asInt arr with
      | none => (.fault, arr)
      | some y0 =>
        let y := sortAsc y0
        match collectIdx y (List.range' 0 (usizeOfInt k)) with
        | none => (.fault, arr)
        | some v => (.ok (v.map Dyn.vInt), arr)
    else (.err typeErrMsg, arr)

theorem array_max_st_spec (s : List Dyn) : array_max_st s = (array_max s, s) := by
  unfold array_max_st array_max
  repeat' split
  all_goals rfl

theorem array_min_st_spec (s : List Dyn) : array_min_st s = (array_min s, s) := by
  unfold array_min_st array_min
  repeat' split
  all_goals rfl

theorem bounds_st_spec (s : List Dyn) : bounds_st s = (bounds s, s) := by
  unfold bounds_st bounds
  rw [array_min_st_spec, array_max_st_spec]
  cases array_min s <;> cases array_max s <;> rfl

theorem maxk_st_spec (s : List Dyn) (k : Int) : maxk_st s k = (maxk s k, s) := by
  unfold maxk_st maxk
  repeat' split
  all_goals try dsimp only
  all_goals repeat' split
  all_goals rfl

theorem mink_st_spec (s : List Dyn) (k : Int) : mink_st s k = (mink s k, s) := by
  unfold mink_st mink
  repeat' split
  all_goals try dsimp only
  all_goals repeat' split
  all_goals rfl

theorem usizeOfInt_toNat (k : Int) (h0 : 0 ≤ k) (h1 : k < 2 ^ 64) :
    usizeOfInt k = k.toNat := by
  unfold usizeOfInt
  rw [Int.emod_eq_of_lt h0 h1]

theorem drop_length_sub_one {α : Type} :
    ∀ (l : List α) (m : α), l.getLast? = some m → l.drop (l.length - 1) = [m]
  | [], m, hm => by simp at hm
  | [a], m, hm => by
    simp at hm
    subst hm
    rfl
  | a :: b :: t, m, hm => by
    rw [List.getLast?_cons_cons] at hm
    have ih := drop_length_sub_one (b :: t) m hm
    simpa using ih

theorem take_one_of_head? {α : Type} (l : List α) (m : α) (hm : l.head? = some m) :
    l.take 1 = [m] := by
  cases l with
  | nil => simp at hm
  | cons a t =>
    simp at hm
    subst hm
    rfl

/-!
Claim theorems.
-/

/-- C1: for every non-empty homogeneous numeric sequence `s` (all integers,
or all NaN-free floats), `maximum(s)` (`array_max`) returns an element of
`s` that is greater than or equal to every element of `s`, and `minimum(s)`
(`array_min`) returns an element of `s` that is less than or equal to every
element of `s`. -/
theorem C1_extrema_attained_bounds (s : List Dyn) (hs : HomNum s) :
    (∃ mx, array_max s = .ok mx ∧ mx ∈ s ∧ ∀ x ∈ s, dynLe x mx = true) ∧
    (∃ mn, array_min s = .ok mn ∧ mn ∈ s ∧ ∀ x ∈ s, dynLe mn x = true) := by
  rcases hs with ⟨ns, hne, rfl⟩ | ⟨qs, hne, rfl⟩
  · obtain ⟨mx, _, hokx, hmemx, hub⟩ := array_max_int ns hne
    obtain ⟨mn, _, hokn, hmemn, hlb⟩ := array_min_int ns hne
    constructor
    · refine ⟨.vInt mx, hokx, List.mem_map_of_mem _ hmemx, ?_⟩
      intro x hx
      obtain ⟨n, hn, rfl⟩ := List.mem_map.1 hx
      simpa [dynLe] using hub n hn
    · refine ⟨.vInt mn, hokn, List.mem_map_of_mem _ hmemn, ?_⟩
      intro x hx
      obtain ⟨n, hn, rfl⟩ := List.mem_map.1 hx
      simpa [dynLe] using hlb n hn
  · obtain ⟨mx, _, hokx, hmemx, hub⟩ := array_max_float qs hne
    obtain ⟨mn, _, hokn, hmemn, hlb⟩ := array_min_float qs hne
    constructor
    · refine ⟨.vFloat mx, hokx, List.mem_map_of_mem _ hmemx, ?_⟩
      intro x hx
      obtain ⟨q, hq, rfl⟩ := List.mem_map.1 hx
      simpa [dynLe] using hub q hq
    · refine ⟨.vFloat mn, hokn, List.mem_map_of_mem _ hmemn, ?_⟩
      intro x hx
      obtain ⟨q, hq, rfl⟩ := List.mem_map.1 hx
      simpa [dynLe] using hlb q hq

/-- Witness for C1 at the concrete sequence `[2, 1]` of integers. -/
theorem C1_extrema_attained_bounds_witness :
    (∃ mx, array_max [Dyn.vInt 2, Dyn.vInt 1] = .ok mx ∧
        mx ∈ [Dyn.vInt 2, Dyn.vInt 1] ∧
        ∀ x ∈ [Dyn.vInt 2, Dyn.vInt 1], dynLe x mx = true) ∧
    (∃ mn, array_min [Dyn.vInt 2, Dyn.vInt 1] = .ok mn ∧
        mn ∈ [Dyn.vInt 2, Dyn.vInt 1] ∧
        ∀ x ∈ [Dyn.vInt 2, Dyn.vInt 1], dynLe mn x = true) :=
  C1_extrema_attained_bounds [Dyn.vInt 2, Dyn.vInt 1] (Or.inl ⟨[2, 1], by decide, rfl⟩)

/-- C2: for every non-empty homogeneous numeric sequence `s`, `bounds s`
returns the 2-element sequence `[minimum(s), maximum(s)]`, in that order,
where the components are the `array_min` and `array_max` reductions of
`s`. -/
theorem C2_bounds_is_min_then_max (s : List Dyn) (hs : HomNum s) :
    ∃ mn mx, array_min s = .ok mn ∧ array_max s = .ok mx ∧
      bounds s = some [mn, mx] := by
  rcases hs with ⟨ns, hne, rfl⟩ | ⟨qs, hne, rfl⟩
  · obtain ⟨mx, _, hokx, _, _⟩ := array_max_int ns hne
    obtain ⟨mn, _, hokn, _, _⟩ := array_min_int ns hne
    exact ⟨.vInt mn, .vInt mx, hokn, hokx, by simp [bounds, hokn, hokx]⟩
  · obtain ⟨mx, _, hokx, _, _⟩ := array_max_float qs hne
    obtain ⟨mn, _, hokn, _, _⟩ := array_min_float qs hne
    exact ⟨.vFloat mn, .vFloat mx, hokn, hokx, by simp [bounds, hokn, hokx]⟩

/-- Witness for C2 at the spec's concrete sequence `[2, 3, 4, 5]`. -/
theorem C2_bounds_is_min_then_max_witness :
    ∃ mn mx, array_min [Dyn.vInt 2, Dyn.vInt 3, Dyn.vInt 4, Dyn.vInt 5] = .ok mn ∧
      array_max [Dyn.vInt 2, Dyn.vInt 3, Dyn.vInt 4, Dyn.vInt 5] = .ok mx ∧
      bounds [Dyn.vInt 2, Dyn.vInt 3, Dyn.vInt 4, Dyn.vInt 5] = some [mn, mx] :=
  C2_bounds_is_min_then_max [Dyn.vInt 2, Dyn.vInt 3, Dyn.vInt 4, Dyn.vInt 5]
    (Or.inl ⟨[2, 3, 4, 5], by decide, rfl⟩)

/-- C4 counterexample: on the non-numeric sequence `["a"]`, `array_min`
does return the TypeError, but `bounds` (whose Rust signature is a plain
`Array` with no error channel) calls `.unwrap()` on that inner error and
panics (`none`), so the claim that all five operations surface the
TypeError to the caller as the operation's result — never a fault — is
false for `bounds`. -/
theorem C4_counterexample :
    array_min [Dyn.vStr "a"] = .err typeErrMsg ∧
    bounds [Dyn.vStr "a"] = none := by decide

/-- C4 amended: on every non-empty sequence whose elements are of a kind
that is neither integer nor float, `max`, `min`, `maxk` and `mink` return
the TypeError (message stating the elements must be INT or FLOAT) as the
operation's result, while `bounds` faults (it unwraps the inner error and
panics) rather than surfacing the error. -/
theorem C4_type_error_surfaced (s : List Dyn) (k : Int) (hne : s ≠ [])
    (hnn : ∀ x ∈ s, x.isIntRep = false ∧ x.isFloatRep = false) :
    array_max s = .err typeErrMsg ∧ array_min s = .err typeErrMsg ∧
    maxk s k = .err typeErrMsg ∧ mink s k = .err typeErrMsg ∧
    bounds s = none := by
  cases s with
  | nil => exact absurd rfl hne
  | cons d t =>
    have hd := hnn d (List.mem_cons_self d t)
    have h1 : array_min (d :: t) = .err typeErrMsg := by
      simp [array_min, hd.1, hd.2]
    refine ⟨?_, h1, ?_, ?_, ?_⟩
    · simp [array_max, hd.1, hd.2]
    · simp [maxk, hd.1, hd.2]
    · simp [mink, hd.1, hd.2]
    · simp [bounds, h1]

/-- Witness for C4 (amended) at the concrete sequence `["a"]` with
`k = 0`. -/
theorem C4_type_error_surfaced_witness :
    array_max [Dyn.vStr "a"] = .err typeErrMsg ∧
    array_min [Dyn.vStr "a"] = .err typeErrMsg ∧
    maxk [Dyn.vStr "a"] 0 = .err typeErrMsg ∧
    mink [Dyn.vStr "a"] 0 = .err typeErrMsg ∧
    bounds [Dyn.vStr "a"] = none :=
  C4_type_error_surfaced [Dyn.vStr "a"] 0 (by decide) (by decide)

/-- C5 counterexample: on the mixed-representation pair `(2 : int,
3.0 : float)` the scalar overloads do not produce a value at all: the
classify-by-first-element path tries to extract the float as an integer,
the `as_int().unwrap()` fails and the call panics (`none`), so mixed pairs
are not accepted as the claim states. -/
theorem C5_counterexample :
    gen_max (Dyn.vInt 2) (Dyn.vFloat 3) = none ∧
    gen_min (Dyn.vInt 2) (Dyn.vFloat 3) = none := by decide

/-- C5 amended: `max(a, b)` and `min(a, b)` agree with the array reductions
on the 2-element sequence `[a, b]` whenever that reduction succeeds, and on
every same-representation pair (both integers or both floats) they return
the greater respectively lesser value; mixed-representation pairs instead
fault. -/
theorem C5_pairwise_same_kind :
    (∀ a b : Dyn, ∀ v, array_max [a, b] = .ok v → gen_max a b = some v) ∧
    (∀ a b : Dyn, ∀ v, array_min [a, b] = .ok v → gen_min a b = some v) ∧
    (∀ a b : Int, gen_max (.vInt a) (.vInt b) = some (.vInt (max a b)) ∧
        gen_min (.vInt a) (.vInt b) = some (.vInt (min a b))) ∧
    (∀ a b : Rat, gen_max (.vFloat a) (.vFloat b) = some (.vFloat (max a b)) ∧
        gen_min (.vFloat a) (.vFloat b) = some (.vFloat (min a b))) := by
  refine ⟨?_, ?_, ?_, ?_⟩
  · intro a b v h
    simp [gen_max, h]
  · intro a b v h
    simp [gen_min, h]
  · intro a b
    obtain ⟨mx, _, hokx, hmemx, hub⟩ := array_max_int [a, b] (by simp)
    obtain ⟨mn, _, hokn, hmemn, hlb⟩ := array_min_int [a, b] (by simp)
    have hmx : mx = max a b := by
      apply le_antisymm
      · rcases List.mem_pair.1 hmemx with rfl | rfl
        · exact le_max_left _ _
        · exact le_max_right _ _
      · exact max_le (hub a (by simp)) (hub b (by simp))
    have hmn : mn = min a b := by
      apply le_antisymm
      · exact le_min (hlb a (by simp)) (hlb b (by simp))
      · rcases List.mem_pair.1 hmemn with rfl | rfl
        · exact min_le_left _ _
        · exact min_le_right _ _
    subst hmx
    subst hmn
    constructor
    · have h2 : array_max [Dyn.vInt a, Dyn.vInt b] = .ok (.vInt (max a b)) := hokx
      simp [gen_max, h2]
    · have h2 : array_min [Dyn.vInt a, Dyn.vInt b] = .ok (.vInt (min a b)) := hokn
      simp [gen_min, h2]
  · intro a b
    obtain ⟨mx, _, hokx, hmemx, hub⟩ := array_max_float [a, b] (by simp)
    obtain ⟨mn, _, hokn, hmemn, hlb⟩ := array_min_float [a, b] (by simp)
    have hmx : mx = max a b := by
      apply le_antisymm
      · rcases List.mem_pair.1 hmemx with rfl | rfl
        · exact le_max_left _ _
        · exact le_max_right _ _
      · exact max_le (hub a (by simp)) (hub b (by simp))
    have hmn : mn = min a b := by
      apply le_antisymm
      · exact le_min (hlb a (by simp)) (hlb b (by simp))
      · rcases List.mem_pair.1 hmemn with rfl | rfl
        · exact min_le_left _ _
        · exact min_le_right _ _
    subst hmx
    subst hmn
    constructor
    · have h2 : array_max [Dyn.vFloat a, Dyn.vFloat b] = .ok (.vFloat (max a b)) := hokx
      simp [gen_max, h2]
    · have h2 : array_min [Dyn.vFloat a, Dyn.vFloat b] = .ok (.vFloat (min a b)) := hokn
      simp [gen_min, h2]

/-- Witness for C5 (amended) on the concrete same-kind pair `(2, 3)`. -/
theorem C5_pairwise_same_kind_witness :
    gen_max (Dyn.vInt 2) (Dyn.vInt 3) = some (Dyn.vInt 3) :=
  C5_pairwise_same_kind.1 (Dyn.vInt 2) (Dyn.vInt 3) (Dyn.vInt 3) (by decide)

/-- C3: for every non-empty homogeneous numeric sequence and every `k` with
`1 ≤ k ≤ length`, `maxk` returns the last `k` elements of the ascending
sort (the `k` largest, in ascending order) and `mink` returns the first `k`
elements of the ascending sort (the `k` smallest, ascending); in
particular, on `s = [32, 15, -7, 10, 1000, 41, 42]`, `maxk s 3 =
[41, 42, 1000]` and `mink s 3 = [-7, 10, 15]`. -/
theorem C3_maxk_mink_from_sorted :
    (∀ (ns : List Int) (k : Nat), 1 ≤ k → k ≤ ns.length →
        (ns.length : Int) < 2 ^ 63 →
        maxk (ns.map Dyn.vInt) (k : Int) =
          .ok (((sortAsc ns).drop (ns.length - k)).map Dyn.vInt) ∧
        mink (ns.map Dyn.vInt) (k : Int) =
          .ok (((sortAsc ns).take k).map Dyn.vInt)) ∧
    (∀ (qs : List Rat) (k : Nat), 1 ≤ k → k ≤ qs.length →
        (qs.length : Int) < 2 ^ 63 →
        maxk (qs.map Dyn.vFloat) (k : Int) =
          .ok (((sortAsc qs).drop (qs.length - k)).map Dyn.vFloat) ∧
        mink (qs.map Dyn.vFloat) (k : Int) =
          .ok (((sortAsc qs).take k).map Dyn.vFloat)) ∧
    maxk ([32, 15, -7, 10, 1000, 41, 42].map Dyn.vInt) 3 =
      .ok ([41, 42, 1000].map Dyn.vInt) ∧
    mink ([32, 15, -7, 10, 1000, 41, 42].map Dyn.vInt) 3 =
      .ok ([-7, 10, 15].map Dyn.vInt) := by
  refine ⟨?_, ?_, by decide, by decide⟩
  · intro ns k hk1 hk2 hlen
    have hne : ns ≠ [] := by
      intro hcon
      subst hcon
      simp at hk2
      omega
    have hfit : ((k : Nat) : Int) < 2 ^ 64 := by
      calc ((k : Nat) : Int) ≤ ns.length := by exact_mod_cast hk2
        _ < 2 ^ 63 := hlen
        _ < 2 ^ 64 := by norm_num
    exact ⟨maxk_int ns k hne hk2 hfit, mink_int ns k hne hk2 hfit⟩
  · intro qs k hk1 hk2 hlen
    have hne : qs ≠ [] := by
      intro hcon
      subst hcon
      simp at hk2
      omega
    have hfit : ((k : Nat) : Int) < 2 ^ 64 := by
      calc ((k : Nat) : Int) ≤ qs.length := by exact_mod_cast hk2
        _ < 2 ^ 63 := hlen
        _ < 2 ^ 64 := by norm_num
    exact ⟨maxk_float qs k hne hk2 hfit, mink_float qs k hne hk2 hfit⟩

/-- Witness for C3 at the sequence `[5, 3]` with `k = 1`. -/
theorem C3_maxk_mink_from_sorted_witness :
    maxk (([5, 3] : List Int).map Dyn.vInt) ((1 : Nat) : Int) =
      .ok (((sortAsc ([5, 3] : List Int)).drop (([5, 3] : List Int).length - 1)).map
        Dyn.vInt) ∧
    mink (([5, 3] : List Int).map Dyn.vInt) ((1 : Nat) : Int) =
      .ok (((sortAsc ([5, 3] : List Int)).take 1).map Dyn.vInt) :=
  C3_maxk_mink_from_sorted.1 [5, 3] 1 (by decide) (by decide) (by decide)

/-- C6: for every non-empty homogeneous numeric sequence `s`,
`maxk s (length s)` and `mink s (length s)` both equal the ascending sort
of `s`. -/
theorem C6_full_selection_is_sort :
    (∀ ns : List Int, ns ≠ [] → (ns.length : Int) < 2 ^ 63 →
        maxk (ns.map Dyn.vInt) (ns.length : Int) = .ok ((sortAsc ns).map Dyn.vInt) ∧
        mink (ns.map Dyn.vInt) (ns.length : Int) = .ok ((sortAsc ns).map Dyn.vInt)) ∧
    (∀ qs : List Rat, qs ≠ [] → (qs.length : Int) < 2 ^ 63 →
        maxk (qs.map Dyn.vFloat) (qs.length : Int) = .ok ((sortAsc qs).map Dyn.vFloat) ∧
        mink (qs.map Dyn.vFloat) (qs.length : Int) = .ok ((sortAsc qs).map Dyn.vFloat)) := by
  constructor
  · intro ns hne hlen
    have hfit : ((ns.length : Nat) : Int) < 2 ^ 64 := lt_trans hlen (by norm_num)
    have h1 := maxk_int ns ns.length hne (le_refl _) hfit
    have h2 := mink_int ns ns.length hne (le_refl _) hfit
    have ht : (sortAsc ns).take ns.length = sortAsc ns := by
      rw [← length_sortAsc ns]
      exact List.take_length _
    constructor
    · simpa using h1
    · rw [h2, ht]
  · intro qs hne hlen
    have hfit : ((qs.length : Nat) : Int) < 2 ^ 64 := lt_trans hlen (by norm_num)
    have h1 := maxk_float qs qs.length hne (le_refl _) hfit
    have h2 := mink_float qs qs.length hne (le_refl _) hfit
    have ht : (sortAsc qs).take qs.length = sortAsc qs := by
      rw [← length_sortAsc qs]
      exact List.take_length _
    constructor
    · simpa using h1
    · rw [h2, ht]

/-- Witness for C6 at the sequence `[9, 4]`. -/
theorem C6_full_selection_is_sort_witness :
    maxk (([9, 4] : List Int).map Dyn.vInt) (([9, 4] : List Int).length : Int) =
      .ok ((sortAsc ([9, 4] : List Int)).map Dyn.vInt) ∧
    mink (([9, 4] : List Int).map Dyn.vInt) (([9, 4] : List Int).length : Int) =
      .ok ((sortAsc ([9, 4] : List Int)).map Dyn.vInt) :=
  C6_full_selection_is_sort.1 [9, 4] (by decide) (by decide)

/-- C7: for every non-empty homogeneous numeric sequence `s`, `maxk s 1`
is the one-element sequence holding `maximum(s)` and `mink s 1` the
one-element sequence holding `minimum(s)`. -/
theorem C7_k_one_reduces_to_extrema (s : List Dyn) (hs : HomNum s) :
    (∃ mx, array_max s = .ok mx ∧ maxk s 1 = .ok [mx]) ∧
    (∃ mn, array_min s = .ok mn ∧ mink s 1 = .ok [mn]) := by
  rcases hs with ⟨ns, hne, rfl⟩ | ⟨qs, hne, rfl⟩
  · obtain ⟨mx, hL, hokx, _, _⟩ := array_max_int ns hne
    obtain ⟨mn, hH, hokn, _, _⟩ := array_min_int ns hne
    have hk : 1 ≤ ns.length := List.length_pos.2 hne
    have h1 := maxk_int ns 1 hne hk (by norm_num)
    have h2 := mink_int ns 1 hne hk (by norm_num)
    simp only [Nat.cast_one] at h1 h2
    have hd : (sortAsc ns).drop (ns.length - 1) = [mx] := by
      rw [← length_sortAsc ns]
      exact drop_length_sub_one _ _ hL
    have ht : (sortAsc ns).take 1 = [mn] := take_one_of_head? _ _ hH
    exact ⟨⟨.vInt mx, hokx, by rw [h1, hd]; rfl⟩, ⟨.vInt mn, hokn, by rw [h2, ht]; rfl⟩⟩
  · obtain ⟨mx, hL, hokx, _, _⟩ := array_max_float qs hne
    obtain ⟨mn, hH, hokn, _, _⟩ := array_min_float qs hne
    have hk : 1 ≤ qs.length := List.length_pos.2 hne
    have h1 := maxk_float qs 1 hne hk (by norm_num)
    have h2 := mink_float qs 1 hne hk (by norm_num)
    simp only [Nat.cast_one] at h1 h2
    have hd : (sortAsc qs).drop (qs.length - 1) = [mx] := by
      rw [← length_sortAsc qs]
      exact drop_length_sub_one _ _ hL
    have ht : (sortAsc qs).take 1 = [mn] := take_one_of_head? _ _ hH
    exact ⟨⟨.vFloat mx, hokx, by rw [h1, hd]; rfl⟩, ⟨.vFloat mn, hokn, by rw [h2, ht]; rfl⟩⟩

/-- Witness for C7 at the concrete sequence `[4, 6]`. -/
theorem C7_k_one_reduces_to_extrema_witness :
    (∃ mx, array_max [Dyn.vInt 4, Dyn.vInt 6] = .ok mx ∧
        maxk [Dyn.vInt 4, Dyn.vInt 6] 1 = .ok [mx]) ∧
    (∃ mn, array_min [Dyn.vInt 4, Dyn.vInt 6] = .ok mn ∧
        mink [Dyn.vInt 4, Dyn.vInt 6] 1 = .ok [mn]) :=
  C7_k_one_reduces_to_extrema [Dyn.vInt 4, Dyn.vInt 6] (Or.inl ⟨[4, 6], by decide, rfl⟩)

/-- C8: under the preconditions (non-empty homogeneous numeric sequence,
`1 ≤ k ≤ length`) every indexing and extraction step inside `maxk` and
`mink` is in bounds, so both return a value and neither faults; if `k`
exceeds the length, both fault (`maxk` by `usize` underflow in
`len - k`, `mink` by an out-of-range index) rather than returning a
value. -/
theorem C8_in_bounds_success_else_fault (s : List Dyn) (k : Int) (hs : HomNum s)
    (hlen : (s.length : Int) < 2 ^ 63) :
    (1 ≤ k → k ≤ (s.length : Int) →
        (∃ v, maxk s k = .ok v) ∧ ∃ w, mink s k = .ok w) ∧
    ((s.length : Int) < k → k < 2 ^ 63 →
        maxk s k = .fault ∧ mink s k = .fault) := by
  rcases hs with ⟨ns, hne, rfl⟩ | ⟨qs, hne, rfl⟩
  · simp only [List.length_map] at hlen ⊢
    constructor
    · intro hk1 hk2
      have hk0 : 0 ≤ k := le_trans (by norm_num) hk1
      have hkeq : (k.toNat : Int) = k := Int.toNat_of_nonneg hk0
      have hkle : k.toNat ≤ ns.length := by omega
      have hfit : (k.toNat : Int) < 2 ^ 64 := by
        calc (k.toNat : Int) = k := hkeq
          _ ≤ ns.length := hk2
          _ < 2 ^ 63 := hlen
          _ < 2 ^ 64 := by norm_num
      have h1 := maxk_int ns k.toNat hne hkle hfit
      have h2 := mink_int ns k.toNat hne hkle hfit
      rw [hkeq] at h1 h2
      exact ⟨⟨_, h1⟩, ⟨_, h2⟩⟩
    · intro hgt hk63
      have hk0 : 0 ≤ k := by omega
      have hu : usizeOfInt k = k.toNat :=
        usizeOfInt_toNat k hk0 (lt_trans hk63 (by norm_num))
      have hklen : ns.length < usizeOfInt k := by
        rw [hu]
        omega
      exact ⟨maxk_int_fault ns k hne hklen, mink_int_fault ns k hne hklen⟩
  · simp only [List.length_map] at hlen ⊢
    constructor
    · intro hk1 hk2
      have hk0 : 0 ≤ k := le_trans (by norm_num) hk1
      have hkeq : (k.toNat : Int) = k := Int.toNat_of_nonneg hk0
      have hkle : k.toNat ≤ qs.length := by omega
      have hfit : (k.toNat : Int) < 2 ^ 64 := by
        calc (k.toNat : Int) = k := hkeq
          _ ≤ qs.length := hk2
          _ < 2 ^ 63 := hlen
          _ < 2 ^ 64 := by norm_num
      have h1 := maxk_float qs k.toNat hne hkle hfit
      have h2 := mink_float qs k.toNat hne hkle hfit
      rw [hkeq] at h1 h2
      exact ⟨⟨_, h1⟩, ⟨_, h2⟩⟩
    · intro hgt hk63
      have hk0 : 0 ≤ k := by omega
      have hu : usizeOfInt k = k.toNat :=
        usizeOfInt_toNat k hk0 (lt_trans hk63 (by norm_num))
      have hklen : qs.length < usizeOfInt k := by
        rw [hu]
        omega
      exact ⟨maxk_float_fault qs k hne hklen, mink_float_fault qs k hne hklen⟩

/-- Witness for C8 at the sequence `[1, 2]` with `k = 2`. -/
theorem C8_in_bounds_success_else_fault_witness :
    (1 ≤ (2 : Int) → (2 : Int) ≤ ((([Dyn.vInt 1, Dyn.vInt 2] : List Dyn).length : Int)) →
        (∃ v, maxk [Dyn.vInt 1, Dyn.vInt 2] 2 = .ok v) ∧
        ∃ w, mink [Dyn.vInt 1, Dyn.vInt 2] 2 = .ok w) ∧
    ((([Dyn.vInt 1, Dyn.vInt 2] : List Dyn).length : Int) < 2 → (2 : Int) < 2 ^ 63 →
        maxk [Dyn.vInt 1, Dyn.vInt 2] 2 = .fault ∧
        mink [Dyn.vInt 1, Dyn.vInt 2] 2 = .fault) :=
  C8_in_bounds_success_else_fault [Dyn.vInt 1, Dyn.vInt 2] 2
    (Or.inl ⟨[1, 2], by decide, rfl⟩) (by decide)

/-- C9: no operation mutates the caller's sequence — the state-passing
forms of all five operations hand the array back unchanged at every exit
(each body only reads `arr` and sorts a separately collected buffer), and
re-running an operation on the array as left by a previous call yields the
identical output. -/
theorem C9_input_unchanged_and_repeatable (s : List Dyn) (k : Int) :
    array_max_st s = (array_max s, s) ∧
    array_min_st s = (array_min s, s) ∧
    bounds_st s = (bounds s, s) ∧
    maxk_st s k = (maxk s k, s) ∧
    mink_st s k = (mink s k, s) ∧
    array_max (array_max_st s).2 = array_max s ∧
    array_min (array_min_st s).2 = array_min s ∧
    bounds (bounds_st s).2 = bounds s ∧
    maxk (maxk_st s k).2 k = maxk s k ∧
    mink (mink_st s k).2 k = mink s k := by
  refine ⟨array_max_st_spec s, array_min_st_spec s, bounds_st_spec s,
    maxk_st_spec s k, mink_st_spec s k, ?_, ?_, ?_, ?_, ?_⟩
  · rw [array_max_st_spec]
  · rw [array_min_st_spec]
  · rw [bounds_st_spec]
  · rw [maxk_st_spec]
  · rw [mink_st_spec]

/-- C10: for every non-empty homogeneous numeric sequence, `maxk s 0` and
`mink s 0` return the empty sequence without faulting: the index ranges
`len..len` and `0..0` are both empty, so no underflow or out-of-bounds
access occurs. -/
theorem C10_k_zero_returns_empty (s : List Dyn) (hs : HomNum s) :
    maxk s 0 = .ok [] ∧ mink s 0 = .ok [] := by
  rcases hs with ⟨ns, hne, rfl⟩ | ⟨qs, hne, rfl⟩
  · have h1 := maxk_int ns 0 hne (Nat.zero_le _) (by norm_num)
    have h2 := mink_int ns 0 hne (Nat.zero_le _) (by norm_num)
    simp only [Nat.cast_zero] at h1 h2
    have hd : (sortAsc ns).drop (ns.length - 0) = [] := by
      rw [Nat.sub_zero, ← length_sortAsc ns]
      exact List.drop_length _
    constructor
    · rw [h1, hd]
      rfl
    · rw [h2]
      simp
  · have h1 := maxk_float qs 0 hne (Nat.zero_le _) (by norm_num)
    have h2 := mink_float qs 0 hne (Nat.zero_le _) (by norm_num)
    simp only [Nat.cast_zero] at h1 h2
    have hd : (sortAsc qs).drop (qs.length - 0) = [] := by
      rw [Nat.sub_zero, ← length_sortAsc qs]
      exact List.drop_length _
    constructor
    · rw [h1, hd]
      rfl
    · rw [h2]
      simp

/-- Witness for C10 at the concrete sequence `[7]`. -/
theorem C10_k_zero_returns_empty_witness :
    maxk [Dyn.vInt 7] 0 = .ok [] ∧ mink [Dyn.vInt 7] 0 = .ok [] :=
  C10_k_zero_returns_empty [Dyn.vInt 7] (Or.inl ⟨[7], by decide, rfl⟩)

end RhaiLab
